import Mathlib

/-!
Verification of the Vitess ristretto cache (`go/cache/ristretto/cache.go`).

The cache front-end (`cache.go`) is embedded directly from the source.  The
store, the admission/eviction policy and the hasher live in companion files
that are not part of the sources under consideration; they are modelled from
the specification (sections 3, 4.1, 4.2, 4.6, 4.7) and each such definition
is marked `Modelled from the spec`.

Machine integers (`int64`, `uint64`) are modelled as `Int`/`Nat`; none of the
verified properties exercise overflow.  Ghost fields on the cache state record
callback invocations and other observables the claims talk about.
-/

set_option linter.unusedVariables false

namespace Ristretto

/-- Go `any` values stored in the cache.  `nil` models the Go nil interface
value; strings and integers cover the values the scenarios use. -/
inductive GoValue where
  | nil
  | str (s : String)
  | int (n : Int)
deriving DecidableEq, Repr

/-- Item flags, from `cache.go` (`itemNew`, `itemDelete`, `itemUpdate`). -/
inductive ItemFlag where
  | new
  | del
  | update
deriving DecidableEq, Repr

/-- An event travelling through the set buffer, from `cache.go` (`Item`).
The `sync` flag models a non-nil `wg *sync.WaitGroup`, i.e. a Wait sync
event; the processor checks it before anything else. -/
structure Item where
  flag : ItemFlag
  key : Nat
  conflict : Nat
  value : GoValue
  cost : Int
  sync : Bool
deriving DecidableEq, Repr

/-- Modelled from the spec (section 3): a stored item carries the conflict
hash, the value and the cost.  (`store.go` is not among the sources.) -/
structure StoredEntry where
  conflict : Nat
  value : GoValue
  cost : Int
deriving DecidableEq, Repr

/-- Modelled from the spec (section 4.2): the store is a mapping from keyHash
to a stored entry.  Sharding by `keyHash mod N` is a concurrency detail that
does not change the mapping; the store is modelled as one association list
with at most one entry per keyHash. -/
abbrev Store := List (Nat × StoredEntry)

/-- Modelled from the spec (section 4.2, `get`): returns the value only if
both hashes match. -/
def storeGet : Store → Nat → Nat → Option GoValue
  | [], _, _ => none
  | (k, e) :: rest, kh, ch =>
    if k = kh then (if e.conflict = ch then some e.value else none)
    else storeGet rest kh ch

/-- Modelled from the spec (section 4.2, `set`): unconditionally inserts,
overwriting any existing entry for the keyHash. -/
def storeSet : Store → Nat → StoredEntry → Store
  | [], kh, e => [(kh, e)]
  | (k, e') :: rest, kh, e =>
    if k = kh then (kh, e) :: rest else (k, e') :: storeSet rest kh e

/-- Modelled from the spec (sections 4.2 and 4.8, `delete`): removes only if
the conflict hash matches; a conflict hash of `0` is a wildcard used by the
processor when deleting victims ("conflict=0 allowed because the victim owns
the slot").  Returns the removed entry, if any, and the new store. -/
def storeDel : Store → Nat → Nat → Option StoredEntry × Store
  | [], _, _ => (none, [])
  | (k, e) :: rest, kh, ch =>
    if k = kh then
      if ch = 0 ∨ ch = e.conflict then (some e, rest) else (none, (k, e) :: rest)
    else
      let r := storeDel rest kh ch
      (r.1, (k, e) :: r.2)

/-- Modelled from the spec (section 4.2, `update`): if an entry for the
keyHash exists with matching conflict hash, replaces its value and cost and
returns the previous value; otherwise leaves the store unchanged. -/
def storeUpdate : Store → Nat → Nat → GoValue → Int → Option GoValue × Bool × Store
  | [], _, _, _, _ => (none, false, [])
  | (k, e) :: rest, kh, ch, v, cost =>
    if k = kh then
      if e.conflict = ch then
        (some e.value, true, (kh, { conflict := ch, value := v, cost := cost }) :: rest)
      else (none, false, (k, e) :: rest)
    else
      let r := storeUpdate rest kh ch v cost
      (r.1, r.2.1, (k, e) :: r.2.2)

/-- Whether the store holds an entry for `kh` whose conflict hash is `ch`,
i.e. whether a `store.Update` for that fingerprint would succeed. -/
def storeHasKC : Store → Nat → Nat → Bool
  | [], _, _ => false
  | (k, e) :: rest, kh, ch =>
    if k = kh then (if e.conflict = ch then true else false) else storeHasKC rest kh ch

/-- Modelled from the spec (section 4.2, `for_each`): visits each item until
the callback returns false; returns the list of visited values. -/
def storeForEach : Store → (GoValue → Bool) → List GoValue
  | [], _ => []
  | (_, e) :: rest, f => if f e.value then e.value :: storeForEach rest f else [e.value]

/-- A victim selected by the eviction policy: its keyHash and ledger cost,
from `policy.Add` returning `[]*Item` with `Key` and `Cost` filled. -/
structure Victim where
  key : Nat
  cost : Int
deriving DecidableEq, Repr

/-- Modelled from the spec (sections 4.5 to 4.7): the policy state is the
cost ledger (keyHash to cost), the running sum `used`, the configured
`maxCost`, and the frequency estimates of the TinyLFU sketch.  The 4-bit
count-min representation of the sketch is a memory optimisation; the policy
only ever consumes the estimates, which are modelled directly. -/
structure Policy where
  ledger : List (Nat × Int)
  used : Int
  maxCost : Int
  freq : List (Nat × Nat)
deriving DecidableEq, Repr

/-- Frequency estimate of a key (spec section 4.5, `estimate`). -/
def freqOf (p : Policy) (k : Nat) : Nat := (p.freq.lookup k).getD 0

/-- Modelled from the spec (section 4.5): one increment of the sketch. -/
def freqBump : List (Nat × Nat) → Nat → List (Nat × Nat)
  | [], k => [(k, 1)]
  | (k', n) :: rest, k => if k' = k then (k, n + 1) :: rest else (k', n) :: freqBump rest k

/-- Replace-or-append on the cost ledger. -/
def ledgerSet : List (Nat × Int) → Nat → Int → List (Nat × Int)
  | [], k, c => [(k, c)]
  | (k', c') :: rest, k, c => if k' = k then (k, c) :: rest else (k', c') :: ledgerSet rest k c

/-- Remove a key from the cost ledger. -/
def ledgerRemove : List (Nat × Int) → Nat → List (Nat × Int)
  | [], _ => []
  | (k', c') :: rest, k => if k' = k then rest else (k', c') :: ledgerRemove rest k

/-- Modelled from the spec (section 4.6, `delete`): removes the key and
subtracts its cost from `used`. -/
def policyDel (p : Policy) (key : Nat) : Policy :=
  match p.ledger.lookup key with
  | some old => { p with ledger := ledgerRemove p.ledger key, used := p.used - old }
  | none => p

/-- Modelled from the spec (section 4.6, `update`): if the key is present,
adjust `used` by the cost difference; no eviction is performed here. -/
def policyUpdate (p : Policy) (key : Nat) (cost : Int) : Policy :=
  match p.ledger.lookup key with
  | some old => { p with ledger := ledgerSet p.ledger key cost, used := p.used + cost - old }
  | none => p

/-- Modelled from the spec (section 4.7, `clear`): empties the ledger and the
sketch and zeroes `used`; `maxCost` is kept. -/
def policyClear (p : Policy) : Policy :=
  { ledger := [], used := 0, maxCost := p.maxCost, freq := [] }

/-- The sampling size K of the sampled-LFU eviction (spec section 4.6,
"commonly 5"). -/
def sampleSize : Nat := 5

/-- Is candidate `a` a better (lower) victim than `b`: compare by estimated
frequency, tie-break by lower cost, then by hash order (spec section 4.6). -/
def victimBetter (p : Policy) (a b : Nat × Int) : Bool :=
  let fa := freqOf p a.1
  let fb := freqOf p b.1
  if fa < fb then true
  else if fa = fb then (if a.2 < b.2 then true else (if a.2 = b.2 then a.1 < b.1 else false))
  else false

/-- Pick the minimal victim out of a sample (spec section 4.6, step 2). -/
def pickVictim (p : Policy) (sample : List (Nat × Int)) : Option (Nat × Int) :=
  sample.foldl
    (fun best c =>
      match best with
      | none => some c
      | some b => if victimBetter p c b then some c else some b)
    none

/-- Modelled from the spec (section 4.6, steps 2 and 3): the eviction loop.
While the incoming cost does not fit, sample candidates from the ledger,
pick the lowest-frequency one and either evict it (incoming frequency at
least the victim's) or reject the incoming candidate.  The uniform sampling
of K candidates is modelled deterministically as the first K ledger entries.
The fuel argument is the ledger size: every iteration removes one ledger
entry, so the loop terminates. -/
def evictLoop (key : Nat) (cost : Int) : Nat → Policy → List Victim → List Victim × Bool × Policy
  | 0, p, vs => if p.used + cost ≤ p.maxCost then (vs, true, p) else (vs, false, p)
  | fuel + 1, p, vs =>
    if p.used + cost ≤ p.maxCost then (vs, true, p)
    else
      match pickVictim p (p.ledger.take sampleSize) with
      | none => (vs, false, p)
      | some v =>
        if freqOf p v.1 ≤ freqOf p key then
          evictLoop key cost fuel (policyDel p v.1) (vs ++ [{ key := v.1, cost := v.2 }])
        else (vs, false, p)

/-- Modelled from the spec (section 4.6): admission.  Step 1 rejects a cost
larger than the whole cache; otherwise the eviction loop makes room, and on
admission the key is inserted into the ledger, `used` grows by the cost and
the sketch records the admitted key (section 4.5b). -/
def policyAdd (p : Policy) (key : Nat) (cost : Int) : List Victim × Bool × Policy :=
  if p.maxCost < cost then ([], false, p)
  else
    let r := evictLoop key cost p.ledger.length p []
    if r.2.1 then
      (r.1, true,
        { r.2.2 with
          ledger := ledgerSet r.2.2.ledger key cost
          used := r.2.2.used + cost
          freq := freqBump r.2.2.freq key })
    else (r.1, false, r.2.2)

/-- Metrics, from `cache.go` (`Metrics`).  Each metric kind is kept in 256
striped atomic counters which readers sum; the model keeps the sums. -/
structure Metrics where
  hit : Nat
  miss : Nat
  keyAdd : Nat
  keysEvicted : Nat
  dropSets : Nat
deriving DecidableEq, Repr

def zeroMetrics : Metrics :=
  { hit := 0, miss := 0, keyAdd := 0, keysEvicted := 0, dropSets := 0 }

/-- Method `Metrics.add` no-ops on a nil receiver (`if p == nil`); a disabled
metrics instance is modelled as `none`. -/
def mAdd (m : Option Metrics) (f : Metrics → Metrics) : Option Metrics := m.map f

/-- The capacity of the set buffer, from `cache.go` (`setBufSize = 32 * 1024`). -/
def setBufSize : Nat := 32 * 1024

/-- The cache state, from `cache.go` (`Cache`).  The `getBuf` ring buffer is
lossy with an at-most-once delivery contract (spec section 4.3) and only
feeds frequency estimates; its pushes are modelled as dropped, which the
contract allows.  `closed` models the `isClosed` atomic.  The fields from
`exitLog` on are ghost instrumentation: `exitLog` records the values passed
to the `onExit` wrapper (which skips nil values), `evictLog` the items passed
to `onEvict`, `costCalls` the number of invocations of the user cost
function, `maxAdmitted` the largest cost ever admitted by `policy.Add`, and
`syncsSignalled` the number of sync events signalled. -/
structure Cache where
  store : Store
  policy : Policy
  setBuf : List Item
  closed : Bool
  metrics : Option Metrics
  costFn : Option (GoValue → Int)
  ignoreInternalCost : Bool
  keyToHash : String → Nat × Nat
  cacheItemSize : Int
  exitLog : List GoValue
  evictLog : List (Nat × GoValue)
  costCalls : Nat
  maxAdmitted : Int
  syncsSignalled : Nat

/-- The `onExit` wrapper built in `NewCache` forwards a value only when it is
non-nil; the ghost log records exactly the forwarded values. -/
def exitAppend (log : List GoValue) (v : GoValue) : List GoValue :=
  if v = GoValue.nil then log else log ++ [v]

/-- Configuration, from `cache.go` (`Config`).  Fields not consumed by the
modelled behaviour (`OnEvict`, `OnReject`, `OnExit`) are represented by the
ghost logs instead of stored closures. -/
structure Config where
  numCounters : Int
  maxCost : Int
  bufferItems : Int
  metrics : Bool
  costFn : Option (GoValue → Int)
  ignoreInternalCost : Bool
  keyToHash : Option (String → Nat × Nat)

/-- Modelled from the spec (section 4.1): the default hasher produces two
seeded fingerprints of the key bytes (`hack.RuntimeStrhash` is external to
the sources; determinism is the required property). -/
def strFingerprint (seed : Nat) (s : String) : Nat :=
  s.foldl (fun a ch => (a * 31 + ch.toNat) % 2 ^ 64) (seed % 2 ^ 64)

def defaultStringHash (s : String) : Nat × Nat :=
  (strFingerprint 0x1122334455667788 s, strFingerprint 0x8877665544332211 s)

/-- The cache built by the non-error branch of `NewCache`. -/
def mkCache (cfg : Config) (cacheItemSize : Int) : Cache :=
  { store := []
    policy := { ledger := [], used := 0, maxCost := cfg.maxCost, freq := [] }
    setBuf := []
    closed := false
    metrics := if cfg.metrics then some zeroMetrics else none
    costFn := cfg.costFn
    ignoreInternalCost := cfg.ignoreInternalCost
    keyToHash := cfg.keyToHash.getD defaultStringHash
    cacheItemSize := cacheItemSize
    exitLog := []
    evictLog := []
    costCalls := 0
    maxAdmitted := 0
    syncsSignalled := 0 }

/-- Constructor `NewCache`, from `cache.go`: rejects a configuration whose `NumCounters`,
`MaxCost` or `BufferItems` is zero, in that order, and otherwise returns a
fresh cache.  `cacheItemSize` is the package variable `CacheItemSize`
(a positive, platform-dependent allocation size), passed explicitly. -/
def NewCache (cfg : Config) (cacheItemSize : Int) : Except String Cache :=
  if cfg.numCounters = 0 then Except.error "NumCounters cannot be zero"
  else if cfg.maxCost = 0 then Except.error "Capacity cannot be zero"
  else if cfg.bufferItems = 0 then Except.error "BufferItems cannot be zero"
  else Except.ok (mkCache cfg cacheItemSize)

/-- The cost the processor charges for an item (from `cache.go`,
`processItems`): a zero cost with a configured cost function and a non-delete
flag is computed lazily from the value, and unless `ignoreInternalCost` is
set the per-entry overhead `CacheItemSize` is added. -/
def effectiveCost (c : Cache) (i : Item) : Int :=
  let base :=
    if i.cost = 0 ∧ i.flag ≠ ItemFlag.del then
      match c.costFn with
      | some f => f i.value
      | none => i.cost
    else i.cost
  if c.ignoreInternalCost then base else base + c.cacheItemSize

/-- How many times the processor invokes the user cost function for an item
(ghost accounting for `effectiveCost`). -/
def lazyCalls (c : Cache) (i : Item) : Nat :=
  if i.cost = 0 ∧ c.costFn.isSome ∧ i.flag ≠ ItemFlag.del then 1 else 0

/-- The victim loop of the processor (from `cache.go`, `processItems`,
`itemNew` branch): each victim is deleted from the store by keyHash with the
conflict wildcard, then handed to `onEvict` (which also runs `onExit`). -/
def processVictims (c : Cache) (vs : List Victim) : Cache :=
  vs.foldl
    (fun s v =>
      let d := storeDel s.store v.key 0
      let val := match d.1 with
        | some e => e.value
        | none => GoValue.nil
      { s with
        store := d.2
        evictLog := s.evictLog ++ [(v.key, val)]
        exitLog := exitAppend s.exitLog val
        metrics := mAdd s.metrics (fun m => { m with keysEvicted := m.keysEvicted + 1 }) })
    c

/-- One iteration of the processor loop on a dequeued item (from `cache.go`,
`processItems`): sync events are signalled; otherwise the cost is fixed up,
then a new item goes through `policy.Add` (admitted: stored and counted;
rejected: `onReject`, hence `onExit`), an update goes to `policy.Update`, and
a delete goes to `policy.Del` plus `store.Del` plus `onExit`. -/
def processOne (c : Cache) (i : Item) : Cache :=
  if i.sync then { c with syncsSignalled := c.syncsSignalled + 1 }
  else
    let cost2 := effectiveCost c i
    let c0 := { c with costCalls := c.costCalls + lazyCalls c i }
    match i.flag with
    | ItemFlag.new =>
      let r := policyAdd c0.policy i.key cost2
      let c1 := { c0 with policy := r.2.2 }
      let c2 :=
        if r.2.1 then
          { c1 with
            store := storeSet c1.store i.key { conflict := i.conflict, value := i.value, cost := cost2 }
            metrics := mAdd c1.metrics (fun m => { m with keyAdd := m.keyAdd + 1 })
            maxAdmitted := max c1.maxAdmitted cost2 }
        else { c1 with exitLog := exitAppend c1.exitLog i.value }
      processVictims c2 r.1
    | ItemFlag.update => { c0 with policy := policyUpdate c0.policy i.key cost2 }
    | ItemFlag.del =>
      let c1 := { c0 with policy := policyDel c0.policy i.key }
      let d := storeDel c1.store i.key i.conflict
      let v := match d.1 with
        | some e => e.value
        | none => GoValue.nil
      { c1 with store := d.2, exitLog := exitAppend c1.exitLog v }

/-- Run the processor over every currently buffered event, in FIFO order. -/
def drainProcess (c : Cache) : Cache :=
  c.setBuf.foldl processOne { c with setBuf := [] }

/-- The sync event `Wait` enqueues (`&Item{wg: wg}`: zero flag, wg set). -/
def syncItem : Item :=
  { flag := ItemFlag.new, key := 0, conflict := 0, value := GoValue.nil, cost := 0, sync := true }

/-- Method `Wait`, from `cache.go`: a no-op on a closed cache; otherwise enqueues a
sync event and blocks until the processor has drained up to and including
it.  In this single-client model the blocking is realised by running the
processor over the whole buffer. -/
def Cache.Wait (c : Cache) : Cache :=
  if c.closed then c
  else drainProcess { c with setBuf := c.setBuf ++ [syncItem] }

/-- Method `Get`, from `cache.go`: nil/closed guard, hash, lossy ring push (modelled
as dropped, see `Cache`), store read with conflict check, hit/miss metric. -/
def Cache.Get (c : Cache) (key : String) : (GoValue × Bool) × Cache :=
  if c.closed then ((GoValue.nil, false), c)
  else
    let kh := (c.keyToHash key).1
    let ch := (c.keyToHash key).2
    match storeGet c.store kh ch with
    | some v => ((v, true), { c with metrics := mAdd c.metrics (fun m => { m with hit := m.hit + 1 }) })
    | none => ((GoValue.nil, false), { c with metrics := mAdd c.metrics (fun m => { m with miss := m.miss + 1 }) })

/-- Method `SetWithCost`, from `cache.go`: closed guard; hash; optimistic in-place
`store.Update` (running `onExit` on the replaced value and switching the
event flag to update); then a nonblocking send to the set buffer.  A full
buffer returns true anyway for updates (the store was already mutated) and
otherwise drops the event, counting `sets-dropped`. -/
def Cache.SetWithCost (c : Cache) (key : String) (value : GoValue) (cost : Int) : Bool × Cache :=
  if c.closed then (false, c)
  else
    let kh := (c.keyToHash key).1
    let ch := (c.keyToHash key).2
    let upd := storeUpdate c.store kh ch value cost
    let updated := upd.2.1
    let c1 :=
      if updated then
        { c with store := upd.2.2, exitLog := exitAppend c.exitLog (upd.1.getD GoValue.nil) }
      else c
    let i : Item :=
      { flag := if updated then ItemFlag.update else ItemFlag.new
        key := kh, conflict := ch, value := value, cost := cost, sync := false }
    if c1.setBuf.length < setBufSize then (true, { c1 with setBuf := c1.setBuf ++ [i] })
    else if updated then (true, c1)
    else (false, { c1 with metrics := mAdd c1.metrics (fun m => { m with dropSets := m.dropSets + 1 }) })

/-- Method `Set`, from `cache.go`: `SetWithCost` with cost 0 (lazy cost). -/
def Cache.Set (c : Cache) (key : String) (value : GoValue) : Bool × Cache :=
  Cache.SetWithCost c key value 0

/-- Method `Delete`, from `cache.go`: closed guard; synchronous `store.Del` in the
caller's thread (running `onExit` on the removed value), then a blocking send
of a delete event so a preceding Set of the same key is processed first.
The blocking send always succeeds eventually and is modelled as an
unconditional enqueue. -/
def Cache.Delete (c : Cache) (key : String) : Cache :=
  if c.closed then c
  else
    let kh := (c.keyToHash key).1
    let ch := (c.keyToHash key).2
    let d := storeDel c.store kh ch
    let prevVal := match d.1 with
      | some e => e.value
      | none => GoValue.nil
    { c with
      store := d.2
      exitLog := exitAppend c.exitLog prevVal
      setBuf := c.setBuf ++
        [{ flag := ItemFlag.del, key := kh, conflict := ch, value := GoValue.nil, cost := 0, sync := false }] }

/-- One step of the drain loop of `Clear` (from `cache.go`): a pending sync
event is signalled; a pending non-update event goes to `onEvict` (hence
`onExit`); pending updates are skipped, their value being already in the
store. -/
def clearDrainStep (s : Cache) (i : Item) : Cache :=
  if i.sync then { s with syncsSignalled := s.syncsSignalled + 1 }
  else if i.flag = ItemFlag.update then s
  else { s with evictLog := s.evictLog ++ [(i.key, i.value)], exitLog := exitAppend s.exitLog i.value }

/-- One step of `store.Clear(c.onEvict)`: every stored item goes to
`onEvict`, hence `onExit`. -/
def storeClearStep (s : Cache) (kv : Nat × StoredEntry) : Cache :=
  { s with evictLog := s.evictLog ++ [(kv.1, kv.2.value)], exitLog := exitAppend s.exitLog kv.2.value }

/-- Method `Clear`, from `cache.go`: closed guard; stops the processor; drains the
set buffer synchronously; clears policy and store (evict callbacks for every
stored item); resets metrics when enabled; restarts the processor. -/
def Cache.Clear (c : Cache) : Cache :=
  if c.closed then c
  else
    let drained := c.setBuf.foldl clearDrainStep { c with setBuf := [] }
    let cleared :=
      c.store.foldl storeClearStep { drained with policy := policyClear drained.policy, store := [] }
    { cleared with metrics := cleared.metrics.map (fun _ => zeroMetrics) }

/-- Method `Close`, from `cache.go`: nil guard; `isClosed.Swap(true)` makes a second
call return immediately; then `Clear` is invoked - on a state already marked
closed, so it returns without doing anything - and the processor and the
channels are shut down. -/
def Cache.Close (c : Cache) : Cache :=
  if c.closed then c
  else Cache.Clear { c with closed := true }

def Cache.Len (c : Cache) : Nat := c.store.length

def Cache.UsedCapacity (c : Cache) : Int := c.policy.used

def Cache.MaxCapacity (c : Cache) : Int := c.policy.maxCost

def Cache.SetCapacity (c : Cache) (n : Int) : Cache :=
  { c with policy := { c.policy with maxCost := n } }

def Cache.Hits (c : Cache) : Nat :=
  match c.metrics with
  | some m => m.hit
  | none => 0

def Cache.Misses (c : Cache) : Nat :=
  match c.metrics with
  | some m => m.miss
  | none => 0

def Cache.Evictions (c : Cache) : Nat :=
  match c.metrics with
  | some m => m.keysEvicted
  | none => 0

def Cache.ForEach (c : Cache) (f : GoValue → Bool) : List GoValue :=
  storeForEach c.store f

/-!
Nil-receiver wrappers.  Every public Go method takes a possibly-nil `*Cache`
receiver and starts with an `if c == nil` guard; `none` models the nil
receiver, and each wrapper mirrors that guard, delegating to the state-level
operation otherwise.
-/

def getOpt : Option Cache → String → (GoValue × Bool) × Option Cache
  | none, _ => ((GoValue.nil, false), none)
  | some c, k => ((c.Get k).1, some (c.Get k).2)

def setOpt : Option Cache → String → GoValue → Bool × Option Cache
  | none, _, _ => (false, none)
  | some c, k, v => ((c.Set k v).1, some (c.Set k v).2)

def setWithCostOpt : Option Cache → String → GoValue → Int → Bool × Option Cache
  | none, _, _, _ => (false, none)
  | some c, k, v, cost => ((c.SetWithCost k v cost).1, some (c.SetWithCost k v cost).2)

def deleteOpt : Option Cache → String → Option Cache
  | none, _ => none
  | some c, k => some (c.Delete k)

def closeOpt : Option Cache → Option Cache
  | none => none
  | some c => some c.Close

def clearOpt : Option Cache → Option Cache
  | none => none
  | some c => some c.Clear

def waitOpt : Option Cache → Option Cache
  | none => none
  | some c => some c.Wait

def lenOpt : Option Cache → Nat
  | none => 0
  | some c => c.Len

def usedCapacityOpt : Option Cache → Int
  | none => 0
  | some c => c.UsedCapacity

def maxCapacityOpt : Option Cache → Int
  | none => 0
  | some c => c.MaxCapacity

def setCapacityOpt : Option Cache → Int → Option Cache
  | none, _ => none
  | some c, n => some (c.SetCapacity n)

def forEachOpt : Option Cache → (GoValue → Bool) → List GoValue
  | none, _ => []
  | some c, f => c.ForEach f

def hitsOpt : Option Cache → Nat
  | none => 0
  | some c => c.Hits

def missesOpt : Option Cache → Nat
  | none => 0
  | some c => c.Misses

def evictionsOpt : Option Cache → Nat
  | none => 0
  | some c => c.Evictions

/-!
Concrete instances used by witnesses and counterexamples.
-/

/-- A toy hasher for the concrete scenarios (a legitimate `KeyToHash`
override; deterministic, injective on the keys the scenarios use, with a
nonzero constant conflict hash). -/
def simpleHash (s : String) : Nat × Nat :=
  (if s = "a" then 353 else if s = "b" then 354 else if s = "c" then 355 else s.length + 1000, 7)

/-- NumCounters=100, MaxCost=10, BufferItems=64, no cost function, internal
cost ignored (the configuration of spec scenario 1). -/
def cfgA : Config :=
  { numCounters := 100, maxCost := 10, bufferItems := 64, metrics := false,
    costFn := none, ignoreInternalCost := true, keyToHash := some simpleHash }

/-- Same as `cfgA` but with metrics enabled. -/
def cfgM : Config :=
  { cfgA with metrics := true }

/-- Byte-length cost function of spec scenario 4 (`len(value_bytes)`). -/
def goLen : GoValue → Int
  | GoValue.str s => (s.length : Int)
  | _ => 0

/-- Configuration `cfgA` with the byte-length cost function configured. -/
def cfgLen : Config :=
  { cfgA with costFn := some goLen }

/-- Admit "a" at cost 1 on a fresh cache and drain. -/
def cexC1a : Cache :=
  Cache.Wait (Cache.SetWithCost (mkCache cfgA 48) "a" (GoValue.int 1) 1).2

/-- Then update "a" in place to cost 100 and drain. -/
def cexC1b : Cache :=
  Cache.Wait (Cache.SetWithCost cexC1a "a" (GoValue.int 2) 100).2

/-- The `sets-dropped` metric as a reader would sum it (0 when disabled). -/
def dropSetsOf (c : Cache) : Nat :=
  match c.metrics with
  | some m => m.dropSets
  | none => 0

/-- A fresh cache with metrics enabled. -/
def witM : Cache := mkCache cfgM 48

/-- A fresh cache (metrics disabled) used by several witnesses. -/
def witA : Cache := mkCache cfgA 48

/-- A new item that fits the empty `witA` cache with room to spare. -/
def witC1item : Item :=
  { flag := ItemFlag.new, key := 3, conflict := 7, value := GoValue.int 0, cost := 2, sync := false }

/-- Closing `cexC1a` (which holds the admitted value for "a"). -/
def cexC6 : Cache := Cache.Close cexC1a

/-- Configuration `cfgLen` with internal cost accounting left enabled (the Go zero value of
`IgnoreInternalCost`) and room for the overhead. -/
def cfgLenInternal : Config :=
  { cfgLen with ignoreInternalCost := false, maxCost := 1000 }

/-- Scenario 4 executed with internal cost accounting enabled and the
per-entry overhead at 48 bytes. -/
def cexC8 : Cache :=
  Cache.Wait (Cache.Set (mkCache cfgLenInternal 48) "a" (GoValue.str "xxx")).2

/-- A cache with one stored item, a matching policy ledger entry, and one
pending new event in the set buffer, used as the `Clear` witness state. -/
def witC7 : Cache :=
  { mkCache cfgM 48 with
    store := [(5, { conflict := 7, value := GoValue.str "v", cost := 1 })]
    policy := { ledger := [(5, 1)], used := 1, maxCost := 10, freq := [] }
    setBuf := [{ flag := ItemFlag.new, key := 9, conflict := 7, value := GoValue.str "w", cost := 1, sync := false }] }

/-- A cache holding "a", used as the delete-roundtrip witness state. -/
def witC9 : Cache := cexC1a

/-!
Helper lemmas about the store.
-/

theorem storeUpdate_ok_eq (st : Store) (kh ch : Nat) (v : GoValue) (cost : Int) :
    (storeUpdate st kh ch v cost).2.1 = storeHasKC st kh ch := by
  induction st with
  | nil => rfl
  | cons hd tl ih =>
    cases hd with
    | mk k e =>
      by_cases h : k = kh
      · by_cases h2 : e.conflict = ch <;> simp [storeUpdate, storeHasKC, h, h2]
      · simp [storeUpdate, storeHasKC, h, ih]

theorem storeGet_storeSet_self (st : Store) (kh : Nat) (e : StoredEntry) :
    storeGet (storeSet st kh e) kh e.conflict = some e.value := by
  induction st with
  | nil => simp [storeSet, storeGet]
  | cons hd tl ih =>
    cases hd with
    | mk k e' =>
      by_cases h : k = kh <;> simp [storeSet, storeGet, h, ih]

theorem storeGet_storeSet_mk (st : Store) (kh ch : Nat) (v : GoValue) (cost : Int) :
    storeGet (storeSet st kh { conflict := ch, value := v, cost := cost }) kh ch = some v :=
  storeGet_storeSet_self st kh { conflict := ch, value := v, cost := cost }

theorem storeUpdate_true_get (st : Store) (kh ch : Nat) (v : GoValue) (cost : Int)
    (h : (storeUpdate st kh ch v cost).2.1 = true) :
    storeGet (storeUpdate st kh ch v cost).2.2 kh ch = some v := by
  induction st with
  | nil => simp [storeUpdate] at h
  | cons hd tl ih =>
    cases hd with
    | mk k e =>
      by_cases h1 : k = kh
      · by_cases h2 : e.conflict = ch
        · simp [storeUpdate, h1, h2, storeGet]
        · simp [storeUpdate, h1, h2] at h
      · simp only [storeUpdate, if_neg h1] at h ⊢
        simp only [storeGet, if_neg h1]
        exact ih h

theorem storeDel_sublist (st : Store) (kh ch : Nat) : List.Sublist (storeDel st kh ch).2 st := by
  induction st with
  | nil => simp [storeDel]
  | cons hd tl ih =>
    cases hd with
    | mk k e =>
      by_cases h : k = kh
      · by_cases h2 : ch = 0 ∨ ch = e.conflict
        · simp [storeDel, h, h2]
        · simp [storeDel, h, h2]
      · simpa [storeDel, h] using List.Sublist.cons₂ (k, e) ih

theorem storeGet_not_mem (st : Store) (kh ch : Nat) (h : kh ∉ st.map Prod.fst) :
    storeGet st kh ch = none := by
  induction st with
  | nil => rfl
  | cons hd tl ih =>
    cases hd with
    | mk k e =>
      simp only [List.map_cons, List.mem_cons] at h
      push_neg at h
      simp [storeGet, Ne.symm h.1, ih h.2]

theorem storeGet_after_del (st : Store) (kh ch : Nat) (h : (st.map Prod.fst).Nodup) :
    storeGet (storeDel st kh ch).2 kh ch = none := by
  induction st with
  | nil => rfl
  | cons hd tl ih =>
    cases hd with
    | mk k e =>
      simp only [List.map_cons, List.nodup_cons] at h
      by_cases h1 : k = kh
      · by_cases h2 : ch = 0 ∨ ch = e.conflict
        · simp only [storeDel, if_pos h1, if_pos h2]
          exact storeGet_not_mem tl kh ch (h1 ▸ h.1)
        · have h2' : ¬ e.conflict = ch := fun hc => h2 (Or.inr hc.symm)
          simp only [storeDel, if_pos h1, if_neg h2]
          simp [storeGet, h1, h2']
      · simp only [storeDel, if_neg h1]
        simp only [storeGet, if_neg h1]
        exact ih h.2

theorem storeSet_keys_sub (st : Store) (kh : Nat) (e : StoredEntry) :
    ∀ x ∈ (storeSet st kh e).map Prod.fst, x = kh ∨ x ∈ st.map Prod.fst := by
  induction st with
  | nil => simp [storeSet]
  | cons hd tl ih =>
    cases hd with
    | mk k e' =>
      by_cases h : k = kh
      · intro x hx
        simp only [storeSet, if_pos h, List.map_cons, List.mem_cons] at hx ⊢
        rcases hx with hx | hx
        · exact Or.inl hx
        · exact Or.inr (Or.inr hx)
      · intro x hx
        simp only [storeSet, if_neg h, List.map_cons, List.mem_cons] at hx ⊢
        rcases hx with hx | hx
        · exact Or.inr (Or.inl hx)
        · rcases ih x hx with hx' | hx'
          · exact Or.inl hx'
          · exact Or.inr (Or.inr hx')

theorem storeSet_nodup (st : Store) (kh : Nat) (e : StoredEntry)
    (h : (st.map Prod.fst).Nodup) : ((storeSet st kh e).map Prod.fst).Nodup := by
  induction st with
  | nil => simp [storeSet]
  | cons hd tl ih =>
    cases hd with
    | mk k e' =>
      simp only [List.map_cons, List.nodup_cons] at h
      by_cases hk : k = kh
      · simp only [storeSet, if_pos hk, List.map_cons, List.nodup_cons]
        exact ⟨hk ▸ h.1, h.2⟩
      · simp only [storeSet, if_neg hk, List.map_cons, List.nodup_cons]
        refine ⟨fun hc => ?_, ih h.2⟩
        rcases storeSet_keys_sub tl kh e k hc with h' | h'
        · exact hk h'
        · exact h.1 h'

theorem storeDel_nodup (st : Store) (kh ch : Nat) (h : (st.map Prod.fst).Nodup) :
    (((storeDel st kh ch).2).map Prod.fst).Nodup :=
  ((storeDel_sublist st kh ch).map Prod.fst).nodup h

theorem storeUpdate_keys (st : Store) (kh ch : Nat) (v : GoValue) (cost : Int) :
    ((storeUpdate st kh ch v cost).2.2).map Prod.fst = st.map Prod.fst := by
  induction st with
  | nil => rfl
  | cons hd tl ih =>
    cases hd with
    | mk k e =>
      by_cases h1 : k = kh
      · by_cases h2 : e.conflict = ch <;> simp [storeUpdate, h1, h2]
      · simp [storeUpdate, h1, ih]

/-!
Helper lemmas about the policy: admission restores the capacity bound.
-/

theorem evictLoop_admit_bound (key : Nat) (cost : Int) :
    ∀ (fuel : Nat) (p : Policy) (vs : List Victim),
      (evictLoop key cost fuel p vs).2.1 = true →
      (evictLoop key cost fuel p vs).2.2.used + cost ≤ (evictLoop key cost fuel p vs).2.2.maxCost
  | 0, p, vs => by
    by_cases h : p.used + cost ≤ p.maxCost <;> simp [evictLoop, h]
  | fuel + 1, p, vs => by
    by_cases h : p.used + cost ≤ p.maxCost
    · simp [evictLoop, h]
    · simp only [evictLoop, if_neg h]
      cases hp : pickVictim p (p.ledger.take sampleSize) with
      | none => simp
      | some v =>
        by_cases hf : freqOf p v.1 ≤ freqOf p key
        · simp only [if_pos hf]
          exact evictLoop_admit_bound key cost fuel (policyDel p v.1) (vs ++ [{ key := v.1, cost := v.2 }])
        · simp [hf]

theorem policyAdd_admit_bound (p : Policy) (key : Nat) (cost : Int)
    (h : (policyAdd p key cost).2.1 = true) :
    (policyAdd p key cost).2.2.used ≤ (policyAdd p key cost).2.2.maxCost := by
  by_cases h1 : p.maxCost < cost
  · simp [policyAdd, h1] at h
  · have hb := evictLoop_admit_bound key cost p.ledger.length p []
    simp only [policyAdd, if_neg h1] at h ⊢
    rcases Bool.eq_false_or_eq_true (evictLoop key cost p.ledger.length p []).2.1 with hE | hE
    · rw [hE] at h ⊢
      simpa using hb hE
    · rw [hE] at h; simp at h

theorem evictLoop_fits (key : Nat) (cost : Int) (fuel : Nat) (p : Policy) (vs : List Victim)
    (h : p.used + cost ≤ p.maxCost) :
    evictLoop key cost fuel p vs = (vs, true, p) := by
  cases fuel <;> simp [evictLoop, h]

theorem policyAdd_room (p : Policy) (key : Nat) (cost : Int)
    (h1 : ¬ p.maxCost < cost) (h2 : p.used + cost ≤ p.maxCost) :
    policyAdd p key cost =
      ([], true,
        { p with
          ledger := ledgerSet p.ledger key cost
          used := p.used + cost
          freq := freqBump p.freq key }) := by
  unfold policyAdd
  rw [if_neg h1, evictLoop_fits key cost _ p [] h2]
  simp

/-!
Preservation lemmas: the processor and the clear loops do not touch the
configuration fields, the closed flag or the (empty) buffer of the state
they run on, and they preserve key uniqueness in the store.
-/

theorem processVictims_closed (vs : List Victim) : ∀ c : Cache,
    (processVictims c vs).closed = c.closed := by
  induction vs with
  | nil => intro c; rfl
  | cons v tl ih =>
    intro c
    unfold processVictims at ih ⊢
    rw [List.foldl_cons]
    exact ih _

theorem processVictims_keyToHash (vs : List Victim) : ∀ c : Cache,
    (processVictims c vs).keyToHash = c.keyToHash := by
  induction vs with
  | nil => intro c; rfl
  | cons v tl ih =>
    intro c
    unfold processVictims at ih ⊢
    rw [List.foldl_cons]
    exact ih _

theorem processVictims_setBuf (vs : List Victim) : ∀ c : Cache,
    (processVictims c vs).setBuf = c.setBuf := by
  induction vs with
  | nil => intro c; rfl
  | cons v tl ih =>
    intro c
    unfold processVictims at ih ⊢
    rw [List.foldl_cons]
    exact ih _

theorem processVictims_policy (vs : List Victim) : ∀ c : Cache,
    (processVictims c vs).policy = c.policy := by
  induction vs with
  | nil => intro c; rfl
  | cons v tl ih =>
    intro c
    unfold processVictims at ih ⊢
    rw [List.foldl_cons]
    exact ih _

theorem processVictims_nodup (vs : List Victim) : ∀ c : Cache,
    (c.store.map Prod.fst).Nodup → ((processVictims c vs).store.map Prod.fst).Nodup := by
  induction vs with
  | nil => intro c h; exact h
  | cons v tl ih =>
    intro c h
    unfold processVictims at ih ⊢
    rw [List.foldl_cons]
    exact ih _ (storeDel_nodup c.store v.key 0 h)

theorem processOne_pres (c : Cache) (i : Item) :
    (processOne c i).closed = c.closed ∧
    (processOne c i).keyToHash = c.keyToHash ∧
    (processOne c i).setBuf = c.setBuf := by
  unfold processOne
  by_cases hs : i.sync
  · simp [hs]
  · simp only [hs, Bool.false_eq_true, if_false]
    cases i.flag with
    | new =>
      by_cases hadd : (policyAdd c.policy i.key (effectiveCost c i)).2.1 <;>
        simp [hadd, processVictims_closed, processVictims_keyToHash, processVictims_setBuf]
    | update => exact ⟨rfl, rfl, rfl⟩
    | del => exact ⟨rfl, rfl, rfl⟩

theorem processOne_nodup (c : Cache) (i : Item)
    (h : (c.store.map Prod.fst).Nodup) : ((processOne c i).store.map Prod.fst).Nodup := by
  unfold processOne
  by_cases hs : i.sync
  · simpa [hs] using h
  · simp only [hs, Bool.false_eq_true, if_false]
    cases i.flag with
    | new =>
      simp only
      by_cases hadd : (policyAdd c.policy i.key (effectiveCost c i)).2.1
      · simp only [hadd, if_true]
        exact processVictims_nodup _ _ (storeSet_nodup _ _ _ h)
      · simp only [hadd, Bool.false_eq_true, if_false]
        exact processVictims_nodup _ _ h
    | update => exact h
    | del => exact storeDel_nodup _ _ _ h

theorem foldl_processOne_pres (items : List Item) : ∀ c : Cache,
    ((items.foldl processOne c).closed = c.closed ∧
     (items.foldl processOne c).keyToHash = c.keyToHash ∧
     (items.foldl processOne c).setBuf = c.setBuf) ∧
    ((c.store.map Prod.fst).Nodup → ((items.foldl processOne c).store.map Prod.fst).Nodup) := by
  induction items with
  | nil => intro c; exact ⟨⟨rfl, rfl, rfl⟩, fun h => h⟩
  | cons i tl ih =>
    intro c
    rw [List.foldl_cons]
    rcases ih (processOne c i) with ⟨⟨h1, h2, h3⟩, h4⟩
    rcases processOne_pres c i with ⟨g1, g2, g3⟩
    exact ⟨⟨h1.trans g1, h2.trans g2, h3.trans g3⟩,
      fun h => h4 (processOne_nodup c i h)⟩

theorem clearDrainStep_pres (s : Cache) (i : Item) :
    (clearDrainStep s i).closed = s.closed ∧
    (clearDrainStep s i).setBuf = s.setBuf ∧
    (clearDrainStep s i).store = s.store ∧
    (clearDrainStep s i).policy = s.policy ∧
    (clearDrainStep s i).metrics = s.metrics := by
  unfold clearDrainStep
  by_cases hs : i.sync
  · simp [hs]
  · by_cases hu : i.flag = ItemFlag.update <;> simp [hs, hu]

theorem foldl_clearDrainStep_pres (items : List Item) : ∀ s : Cache,
    (items.foldl clearDrainStep s).closed = s.closed ∧
    (items.foldl clearDrainStep s).setBuf = s.setBuf ∧
    (items.foldl clearDrainStep s).store = s.store ∧
    (items.foldl clearDrainStep s).policy = s.policy ∧
    (items.foldl clearDrainStep s).metrics = s.metrics := by
  induction items with
  | nil => intro s; exact ⟨rfl, rfl, rfl, rfl, rfl⟩
  | cons i tl ih =>
    intro s
    rw [List.foldl_cons]
    rcases ih (clearDrainStep s i) with ⟨h1, h2, h3, h4, h5⟩
    rcases clearDrainStep_pres s i with ⟨g1, g2, g3, g4, g5⟩
    exact ⟨h1.trans g1, h2.trans g2, h3.trans g3, h4.trans g4, h5.trans g5⟩

theorem foldl_clearDrainStep_evictLog (items : List Item) : ∀ s : Cache,
    (items.foldl clearDrainStep s).evictLog =
      s.evictLog ++
        (items.filter (fun i => !i.sync && !(i.flag == ItemFlag.update))).map
          (fun i => (i.key, i.value)) := by
  induction items with
  | nil => intro s; simp
  | cons i tl ih =>
    intro s
    rw [List.foldl_cons, ih]
    by_cases h1 : i.sync
    · simp [clearDrainStep, h1]
    · by_cases h2 : i.flag = ItemFlag.update
      · simp [clearDrainStep, h1, h2]
      · simp [clearDrainStep, h1, h2]

theorem storeClearStep_pres (s : Cache) (kv : Nat × StoredEntry) :
    (storeClearStep s kv).closed = s.closed ∧
    (storeClearStep s kv).setBuf = s.setBuf ∧
    (storeClearStep s kv).store = s.store ∧
    (storeClearStep s kv).policy = s.policy ∧
    (storeClearStep s kv).metrics = s.metrics :=
  ⟨rfl, rfl, rfl, rfl, rfl⟩

theorem foldl_storeClearStep_pres (kvs : List (Nat × StoredEntry)) : ∀ s : Cache,
    (kvs.foldl storeClearStep s).closed = s.closed ∧
    (kvs.foldl storeClearStep s).setBuf = s.setBuf ∧
    (kvs.foldl storeClearStep s).store = s.store ∧
    (kvs.foldl storeClearStep s).policy = s.policy ∧
    (kvs.foldl storeClearStep s).metrics = s.metrics := by
  induction kvs with
  | nil => intro s; exact ⟨rfl, rfl, rfl, rfl, rfl⟩
  | cons kv tl ih =>
    intro s
    rw [List.foldl_cons]
    exact ih (storeClearStep s kv)

theorem foldl_storeClearStep_evictLog (kvs : List (Nat × StoredEntry)) : ∀ s : Cache,
    (kvs.foldl storeClearStep s).evictLog =
      s.evictLog ++ kvs.map (fun kv => (kv.1, kv.2.value)) := by
  induction kvs with
  | nil => intro s; simp
  | cons kv tl ih =>
    intro s
    rw [List.foldl_cons, ih]
    simp [storeClearStep]

theorem foldl_cds_closed (items : List Item) (s : Cache) :
    (items.foldl clearDrainStep s).closed = s.closed := (foldl_clearDrainStep_pres items s).1

theorem foldl_cds_setBuf (items : List Item) (s : Cache) :
    (items.foldl clearDrainStep s).setBuf = s.setBuf := (foldl_clearDrainStep_pres items s).2.1

theorem foldl_cds_store (items : List Item) (s : Cache) :
    (items.foldl clearDrainStep s).store = s.store := (foldl_clearDrainStep_pres items s).2.2.1

theorem foldl_cds_policy (items : List Item) (s : Cache) :
    (items.foldl clearDrainStep s).policy = s.policy := (foldl_clearDrainStep_pres items s).2.2.2.1

theorem foldl_cds_metrics (items : List Item) (s : Cache) :
    (items.foldl clearDrainStep s).metrics = s.metrics := (foldl_clearDrainStep_pres items s).2.2.2.2

theorem foldl_scs_closed (kvs : List (Nat × StoredEntry)) (s : Cache) :
    (kvs.foldl storeClearStep s).closed = s.closed := (foldl_storeClearStep_pres kvs s).1

theorem foldl_scs_setBuf (kvs : List (Nat × StoredEntry)) (s : Cache) :
    (kvs.foldl storeClearStep s).setBuf = s.setBuf := (foldl_storeClearStep_pres kvs s).2.1

theorem foldl_scs_store (kvs : List (Nat × StoredEntry)) (s : Cache) :
    (kvs.foldl storeClearStep s).store = s.store := (foldl_storeClearStep_pres kvs s).2.2.1

theorem foldl_scs_policy (kvs : List (Nat × StoredEntry)) (s : Cache) :
    (kvs.foldl storeClearStep s).policy = s.policy := (foldl_storeClearStep_pres kvs s).2.2.2.1

theorem foldl_scs_metrics (kvs : List (Nat × StoredEntry)) (s : Cache) :
    (kvs.foldl storeClearStep s).metrics = s.metrics := (foldl_storeClearStep_pres kvs s).2.2.2.2

theorem processOne_sync_store (x : Cache) : (processOne x syncItem).store = x.store := rfl

theorem processOne_sync_policy (x : Cache) : (processOne x syncItem).policy = x.policy := rfl

theorem processOne_sync_closed (x : Cache) : (processOne x syncItem).closed = x.closed := rfl

theorem processOne_sync_keyToHash (x : Cache) :
    (processOne x syncItem).keyToHash = x.keyToHash := rfl

theorem processOne_del_store (s : Cache) (kh ch : Nat) :
    (processOne s
      { flag := ItemFlag.del, key := kh, conflict := ch, value := GoValue.nil, cost := 0,
        sync := false }).store = (storeDel s.store kh ch).2 := rfl

theorem processOne_del_closed (s : Cache) (kh ch : Nat) :
    (processOne s
      { flag := ItemFlag.del, key := kh, conflict := ch, value := GoValue.nil, cost := 0,
        sync := false }).closed = s.closed := rfl

theorem processOne_del_keyToHash (s : Cache) (kh ch : Nat) :
    (processOne s
      { flag := ItemFlag.del, key := kh, conflict := ch, value := GoValue.nil, cost := 0,
        sync := false }).keyToHash = s.keyToHash := rfl

/-- After the processor handles the delete event for `(kh, ch)` and then a
sync event, a `Get` that hashes to `(kh, ch)` misses, whatever buffered
events preceded the delete. -/
theorem get_of_drain_del (init : Cache) (items : List Item) (kh ch : Nat) (key : String)
    (hcl : init.closed = false)
    (hkh : init.keyToHash key = (kh, ch))
    (hnd : (init.store.map Prod.fst).Nodup) :
    (Cache.Get
      (processOne
        (processOne (items.foldl processOne init)
          { flag := ItemFlag.del, key := kh, conflict := ch, value := GoValue.nil, cost := 0,
            sync := false })
        syncItem) key).1 = (GoValue.nil, false) := by
  rcases foldl_processOne_pres items init with ⟨⟨p1, p2, p3⟩, p4⟩
  have hG := storeGet_after_del (items.foldl processOne init).store kh ch (p4 hnd)
  unfold Cache.Get
  simp only [processOne_sync_closed, processOne_del_closed, p1, hcl, Bool.false_eq_true, if_false,
    processOne_sync_keyToHash, processOne_del_keyToHash, p2, hkh,
    processOne_sync_store, processOne_del_store, hG]

/-!
Claim theorems.
-/

/-- C1 (amended): the global bound `used_capacity() ≤ max_capacity() +
largest admitted cost` does not survive cost-raising update events (see the
counterexample); what the code does guarantee, and restores within the same
admission step by evicting victims, is that whenever the processor handles a
new item and `policy.Add` admits it, the resulting `used_capacity()` is at
most `max_capacity()`. -/
theorem admission_restores_bound (c : Cache) (i : Item)
    (hs : i.sync = false) (hf : i.flag = ItemFlag.new)
    (hadd : (policyAdd c.policy i.key (effectiveCost c i)).2.1 = true) :
    Cache.UsedCapacity (processOne c i) ≤ Cache.MaxCapacity (processOne c i) := by
  unfold Cache.UsedCapacity Cache.MaxCapacity processOne
  rw [hs, hf]
  simp only [Bool.false_eq_true, if_false, processVictims_policy]
  simp only [hadd, if_true]
  exact policyAdd_admit_bound _ _ _ hadd

/-- Witness for C1: a concrete admission on a fresh cache. -/
theorem admission_restores_bound_witness :
    witC1item.sync = false ∧ witC1item.flag = ItemFlag.new ∧
    (policyAdd witA.policy witC1item.key (effectiveCost witA witC1item)).2.1 = true ∧
    Cache.UsedCapacity (processOne witA witC1item) ≤ Cache.MaxCapacity (processOne witA witC1item) :=
  ⟨rfl, rfl, by decide, admission_restores_bound witA witC1item rfl rfl (by decide)⟩

/-- Counterexample for C1 as stated: admit "a" at cost 1 (the largest cost
ever admitted), then update it in place to cost 100; with `max_cost = 10`
the used capacity reaches 100, which exceeds `max_capacity()` plus the
largest admitted cost. -/
theorem bound_update_counterexample :
    cexC1b.closed = false ∧
    cexC1b.maxAdmitted = 1 ∧
    Cache.UsedCapacity cexC1b = 100 ∧
    Cache.MaxCapacity cexC1b = 10 ∧
    ¬ Cache.UsedCapacity cexC1b ≤ Cache.MaxCapacity cexC1b + cexC1b.maxAdmitted := by
  refine ⟨by decide, by decide, by decide, by decide, by decide⟩

/-- C3: on an open cache, `SetWithCost` returns true when the set-buffer
send succeeds (room in the buffer) without touching `sets-dropped`; on a
full buffer it returns true exactly when the event was an in-place update of
an entry already present (matching keyHash and conflictHash), and it
increments `sets-dropped` exactly in the non-update case. -/
theorem setWithCost_send_semantics (c : Cache) (key : String) (v : GoValue) (cost : Int)
    (hopen : c.closed = false) (hm : c.metrics.isSome) :
    (c.setBuf.length < setBufSize →
      (Cache.SetWithCost c key v cost).1 = true ∧
      dropSetsOf (Cache.SetWithCost c key v cost).2 = dropSetsOf c) ∧
    (¬ c.setBuf.length < setBufSize →
      ((Cache.SetWithCost c key v cost).1 =
        storeHasKC c.store ((c.keyToHash key).1) ((c.keyToHash key).2)) ∧
      dropSetsOf (Cache.SetWithCost c key v cost).2 =
        (if storeHasKC c.store ((c.keyToHash key).1) ((c.keyToHash key).2) then dropSetsOf c
         else dropSetsOf c + 1)) := by
  obtain ⟨m, hmm⟩ := Option.isSome_iff_exists.mp hm
  have hU := storeUpdate_ok_eq c.store ((c.keyToHash key).1) ((c.keyToHash key).2) v cost
  constructor
  · intro hlen
    unfold Cache.SetWithCost
    rw [hopen]
    simp only [Bool.false_eq_true, if_false]
    rcases Bool.eq_false_or_eq_true
        (storeHasKC c.store ((c.keyToHash key).1) ((c.keyToHash key).2)) with hKC | hKC <;>
      rw [hKC] at hU <;>
      simp [hU, hlen, dropSetsOf, hmm]
  · intro hlen
    unfold Cache.SetWithCost
    rw [hopen]
    simp only [Bool.false_eq_true, if_false]
    rcases Bool.eq_false_or_eq_true
        (storeHasKC c.store ((c.keyToHash key).1) ((c.keyToHash key).2)) with hKC | hKC <;>
      rw [hKC] at hU <;>
      simp [hU, hKC, hlen, dropSetsOf, hmm, mAdd]

/-- Witness for C3: a fresh cache with metrics enabled. -/
theorem setWithCost_send_semantics_witness :
    (witM.setBuf.length < setBufSize →
      (Cache.SetWithCost witM "a" (GoValue.int 1) 1).1 = true ∧
      dropSetsOf (Cache.SetWithCost witM "a" (GoValue.int 1) 1).2 = dropSetsOf witM) ∧
    (¬ witM.setBuf.length < setBufSize →
      ((Cache.SetWithCost witM "a" (GoValue.int 1) 1).1 =
        storeHasKC witM.store ((witM.keyToHash "a").1) ((witM.keyToHash "a").2)) ∧
      dropSetsOf (Cache.SetWithCost witM "a" (GoValue.int 1) 1).2 =
        (if storeHasKC witM.store ((witM.keyToHash "a").1) ((witM.keyToHash "a").2) then dropSetsOf witM
         else dropSetsOf witM + 1)) :=
  setWithCost_send_semantics witM "a" (GoValue.int 1) 1 rfl rfl

/-- The effective cost only depends on the item and the configuration
fields. -/
theorem effectiveCost_config (c d : Cache) (i : Item)
    (h1 : d.costFn = c.costFn) (h2 : d.ignoreInternalCost = c.ignoreInternalCost)
    (h3 : d.cacheItemSize = c.cacheItemSize) :
    effectiveCost d i = effectiveCost c i := by
  unfold effectiveCost
  rw [h1, h2, h3]

/-- C2: on an open, quiescent cache (empty set buffer), a `SetWithCost`
whose effective cost both fits the cache (`≤ max_cost`, so step 1 of the
policy does not reject) and has room (`used + cost ≤ max_cost`, so the
eviction loop admits at once) returns true, and `Wait()` followed by
`Get(K)` returns the stored value with found = true — both when the key is
new and when the call was an in-place update of a present entry. -/
theorem set_wait_get_roundtrip (c : Cache) (key : String) (v : GoValue) (cost : Int)
    (hopen : c.closed = false) (hbuf : c.setBuf = [])
    (hfit : ¬ c.policy.maxCost <
      effectiveCost c
        { flag := ItemFlag.new, key := (c.keyToHash key).1, conflict := (c.keyToHash key).2,
          value := v, cost := cost, sync := false })
    (hroom : c.policy.used +
        effectiveCost c
          { flag := ItemFlag.new, key := (c.keyToHash key).1, conflict := (c.keyToHash key).2,
            value := v, cost := cost, sync := false } ≤ c.policy.maxCost) :
    (Cache.SetWithCost c key v cost).1 = true ∧
    (Cache.Get (Cache.Wait (Cache.SetWithCost c key v cost).2) key).1 = (v, true) := by
  have hU := storeUpdate_ok_eq c.store ((c.keyToHash key).1) ((c.keyToHash key).2) v cost
  rcases Bool.eq_false_or_eq_true
      (storeHasKC c.store ((c.keyToHash key).1) ((c.keyToHash key).2)) with hKC | hKC
  · -- the key is already present with a matching conflict hash:
    -- the store was updated in place and the buffered event is an update.
    rw [hKC] at hU
    have hG := storeUpdate_true_get c.store ((c.keyToHash key).1) ((c.keyToHash key).2) v cost hU
    unfold Cache.SetWithCost
    rw [hopen]
    simp only [Bool.false_eq_true, if_false, hU, if_true, hbuf]
    constructor
    · simp [setBufSize]
    · simp only [List.length_nil, setBufSize]
      rw [if_pos (by norm_num)]
      unfold Cache.Wait drainProcess
      simp only [hopen, Bool.false_eq_true, if_false, List.nil_append, List.singleton_append,
        List.foldl_cons, List.foldl_nil]
      unfold processOne
      simp only [syncItem, Bool.false_eq_true, if_false, if_true]
      unfold Cache.Get
      simp [hopen, hG]
  · -- the key is absent (or conflicting): a new event is buffered and the
    -- policy admits it with no victims.
    rw [hKC] at hU
    unfold Cache.SetWithCost
    rw [hopen]
    simp only [Bool.false_eq_true, if_false, hU, if_true, hbuf]
    constructor
    · simp [setBufSize]
    · simp only [List.length_nil, setBufSize]
      rw [if_pos (by norm_num)]
      unfold Cache.Wait drainProcess
      simp only [hopen, Bool.false_eq_true, if_false, List.nil_append, List.singleton_append,
        List.foldl_cons, List.foldl_nil]
      unfold processOne
      simp only [syncItem, Bool.false_eq_true, if_false, if_true]
      rw [policyAdd_room]
      · simp only [if_true]
        unfold processVictims
        simp only [List.foldl_nil]
        unfold Cache.Get
        simp [hopen, storeGet_storeSet_mk]
      · exact hfit
      · exact hroom

/-- C4 (amended): `Close` is idempotent, and after `Close` the guarded
operations `Get`, `Set`, `SetWithCost`, `Delete`, `Clear` and `Wait` are
no-ops returning the zero value of their result domains.  (The unguarded
accessors `Len`, `UsedCapacity` and `MaxCapacity` keep reporting the current
state, see the counterexample.) -/
theorem close_idempotent_and_noops (c : Cache) (k : String) (v : GoValue) (cost : Int) :
    Cache.Close (Cache.Close c) = Cache.Close c ∧
    (Cache.Close c).closed = true ∧
    Cache.Get (Cache.Close c) k = ((GoValue.nil, false), Cache.Close c) ∧
    Cache.Set (Cache.Close c) k v = (false, Cache.Close c) ∧
    Cache.SetWithCost (Cache.Close c) k v cost = (false, Cache.Close c) ∧
    Cache.Delete (Cache.Close c) k = Cache.Close c ∧
    Cache.Clear (Cache.Close c) = Cache.Close c ∧
    Cache.Wait (Cache.Close c) = Cache.Close c := by
  have hcl : (Cache.Close c).closed = true := by
    unfold Cache.Close Cache.Clear
    by_cases h : c.closed <;> simp [h]
  have hClose : ∀ d : Cache, d.closed = true → Cache.Close d = d := fun d hd => by
    unfold Cache.Close; rw [if_pos hd]
  have hGet : ∀ d : Cache, d.closed = true → Cache.Get d k = ((GoValue.nil, false), d) := fun d hd => by
    unfold Cache.Get; rw [if_pos hd]
  have hSet : ∀ d : Cache, d.closed = true → Cache.SetWithCost d k v cost = (false, d) := fun d hd => by
    unfold Cache.SetWithCost; rw [if_pos hd]
  have hSet0 : ∀ d : Cache, d.closed = true → Cache.Set d k v = (false, d) := fun d hd => by
    unfold Cache.Set Cache.SetWithCost; rw [if_pos hd]
  have hDel : ∀ d : Cache, d.closed = true → Cache.Delete d k = d := fun d hd => by
    unfold Cache.Delete; rw [if_pos hd]
  have hClear : ∀ d : Cache, d.closed = true → Cache.Clear d = d := fun d hd => by
    unfold Cache.Clear; rw [if_pos hd]
  have hWait : ∀ d : Cache, d.closed = true → Cache.Wait d = d := fun d hd => by
    unfold Cache.Wait; rw [if_pos hd]
  exact ⟨hClose _ hcl, hcl, hGet _ hcl, hSet0 _ hcl, hSet _ hcl, hDel _ hcl,
    hClear _ hcl, hWait _ hcl⟩

/-- Counterexample for C4 as stated ("every public operation returns the
zero value of its result domain"): `MaxCapacity` has no closed-guard and
still reports 10 on a closed cache, and `Len`/`UsedCapacity` likewise keep
reporting the pre-close state. -/
theorem close_counterexample :
    cexC6.closed = true ∧
    Cache.MaxCapacity cexC6 = 10 ∧ ¬ Cache.MaxCapacity cexC6 = 0 ∧
    Cache.Len cexC6 = 1 ∧ ¬ Cache.Len cexC6 = 0 ∧
    Cache.UsedCapacity cexC6 = 1 ∧ ¬ Cache.UsedCapacity cexC6 = 0 := by
  refine ⟨by decide, by decide, by decide, by decide, by decide, by decide, by decide⟩

/-- C5: `NewCache` returns a cache exactly when none of `NumCounters`,
`MaxCost` and `BufferItems` is zero; a zero in any of them is reported as a
synchronous construction error with no cache returned. -/
theorem newCache_ok_iff (cfg : Config) (cis : Int) :
    (∃ c, NewCache cfg cis = Except.ok c) ↔
      (cfg.numCounters ≠ 0 ∧ cfg.maxCost ≠ 0 ∧ cfg.bufferItems ≠ 0) := by
  unfold NewCache
  split_ifs with h1 h2 h3 <;> simp_all

/-- C6 (the claim is right, the code is not): after admitting the value for
"a", `Close` never invokes the exit callback for it.  `Close` swaps
`isClosed` to true before calling `Clear`, so that `Clear` returns
immediately and the stored value never leaves through any callback: the exit
log stays empty while the value is still in the (now unreachable) store. -/
theorem close_skips_exit_callbacks :
    Cache.Len cexC1a = 1 ∧
    storeGet cexC1a.store (simpleHash "a").1 (simpleHash "a").2 = some (GoValue.int 1) ∧
    cexC1a.exitLog = [] ∧
    cexC6.closed = true ∧
    cexC6.exitLog = [] ∧
    cexC6.evictLog = [] ∧
    Cache.Len cexC6 = 1 := by
  refine ⟨by decide, by decide, by decide, by decide, by decide, by decide, by decide⟩

/-- C8 (amended): with a configured cost function and `IgnoreInternalCost`
set, `Set("a", "xxx")` with cost 0 makes the processor compute the cost
lazily, exactly once, from the value: after `wait()`, `used_capacity() = 3`
and the cost function ran once — for every value of the per-entry overhead
`CacheItemSize`. -/
theorem lazy_cost_amended (cis : Int) :
    Cache.UsedCapacity (Cache.Wait (Cache.Set (mkCache cfgLen cis) "a" (GoValue.str "xxx")).2) = 3 ∧
    (Cache.Wait (Cache.Set (mkCache cfgLen cis) "a" (GoValue.str "xxx")).2).costCalls = 1 := by
  exact ⟨rfl, rfl⟩

/-- Counterexample for C8 as stated: with internal cost accounting enabled
(the zero value of `IgnoreInternalCost`) and a per-entry overhead of 48, the
same scenario yields `used_capacity() = 3 + 48 = 51`, not 3, although the
lazy computation still happened exactly once. -/
theorem lazy_cost_counterexample :
    Cache.UsedCapacity cexC8 = 51 ∧ ¬ Cache.UsedCapacity cexC8 = 3 ∧ cexC8.costCalls = 1 := by
  refine ⟨by decide, by decide, by decide⟩

/-- Witness for C2: a fresh cache admits "a" with cost 1 and the roundtrip
returns the value. -/
theorem set_wait_get_roundtrip_witness :
    witA.closed = false ∧ witA.setBuf = [] ∧
    (Cache.SetWithCost witA "a" (GoValue.str "x") 1).1 = true ∧
    (Cache.Get (Cache.Wait (Cache.SetWithCost witA "a" (GoValue.str "x") 1).2) "a").1 =
      (GoValue.str "x", true) :=
  ⟨rfl, rfl,
    (set_wait_get_roundtrip witA "a" (GoValue.str "x") 1 rfl rfl (by decide) (by decide)).1,
    (set_wait_get_roundtrip witA "a" (GoValue.str "x") 1 rfl rfl (by decide) (by decide)).2⟩

/-- C7: on an open cache, `Clear` empties the set buffer synchronously
(passing every pending non-sync, non-update event to the evict callback),
clears the policy ledger and the store (passing every stored item to the
evict callback), resets the metrics when they are enabled, and leaves the
cache open (the processor is restarted); consequently `clear()` followed by
`wait()` reports `len() = 0` and `used_capacity() = 0`. -/
theorem clear_drains_and_empties (c : Cache) (hopen : c.closed = false) :
    (Cache.Clear c).setBuf = [] ∧
    (Cache.Clear c).store = [] ∧
    (Cache.Clear c).policy = policyClear c.policy ∧
    (Cache.Clear c).metrics = c.metrics.map (fun _ => zeroMetrics) ∧
    (Cache.Clear c).evictLog =
      c.evictLog ++
        (c.setBuf.filter (fun i => !i.sync && !(i.flag == ItemFlag.update))).map
          (fun i => (i.key, i.value)) ++
        c.store.map (fun kv => (kv.1, kv.2.value)) ∧
    (Cache.Clear c).closed = false ∧
    Cache.Len (Cache.Wait (Cache.Clear c)) = 0 ∧
    Cache.UsedCapacity (Cache.Wait (Cache.Clear c)) = 0 := by
  unfold Cache.Clear
  rw [hopen]
  simp only [Bool.false_eq_true, if_false]
  refine ⟨?_, ?_, ?_, ?_, ?_, ?_, ?_, ?_⟩
  · simp [foldl_scs_setBuf, foldl_cds_setBuf]
  · simp [foldl_scs_store]
  · simp [foldl_scs_policy, foldl_cds_policy]
  · simp [foldl_scs_metrics, foldl_cds_metrics]
  · simp [foldl_storeClearStep_evictLog, foldl_clearDrainStep_evictLog]
  · simp [foldl_scs_closed, foldl_cds_closed, hopen]
  · unfold Cache.Wait drainProcess Cache.Len
    simp [foldl_scs_closed, foldl_cds_closed, hopen, foldl_scs_setBuf, foldl_cds_setBuf,
      processOne_sync_store, foldl_scs_store]
  · unfold Cache.Wait drainProcess Cache.UsedCapacity
    simp [foldl_scs_closed, foldl_cds_closed, hopen, foldl_scs_setBuf, foldl_cds_setBuf,
      processOne_sync_policy, foldl_scs_policy, foldl_cds_policy, policyClear]

/-- Witness for C7: clearing a cache that holds one stored item and one
pending new event. -/
theorem clear_drains_and_empties_witness :
    (Cache.Clear witC7).setBuf = [] ∧
    (Cache.Clear witC7).store = [] ∧
    (Cache.Clear witC7).policy = policyClear witC7.policy ∧
    (Cache.Clear witC7).metrics = witC7.metrics.map (fun _ => zeroMetrics) ∧
    (Cache.Clear witC7).evictLog =
      witC7.evictLog ++
        (witC7.setBuf.filter (fun i => !i.sync && !(i.flag == ItemFlag.update))).map
          (fun i => (i.key, i.value)) ++
        witC7.store.map (fun kv => (kv.1, kv.2.value)) ∧
    (Cache.Clear witC7).closed = false ∧
    Cache.Len (Cache.Wait (Cache.Clear witC7)) = 0 ∧
    Cache.UsedCapacity (Cache.Wait (Cache.Clear witC7)) = 0 :=
  clear_drains_and_empties witC7 rfl

/-- C9: on an open cache, `Delete(K)` removes the entry from the store in
the caller's thread and always enqueues a delete event behind everything
already buffered (so an earlier Set of K is processed first), and
`delete(K); wait(); get(K)` misses, whatever events were pending. -/
theorem delete_wait_get_not_found (c : Cache) (key : String)
    (hopen : c.closed = false) (hnd : (c.store.map Prod.fst).Nodup) :
    (Cache.Delete c key).store = (storeDel c.store ((c.keyToHash key).1) ((c.keyToHash key).2)).2 ∧
    (Cache.Delete c key).setBuf = c.setBuf ++
      [{ flag := ItemFlag.del, key := (c.keyToHash key).1, conflict := (c.keyToHash key).2,
         value := GoValue.nil, cost := 0, sync := false }] ∧
    (Cache.Get (Cache.Wait (Cache.Delete c key)) key).1 = (GoValue.nil, false) := by
  refine ⟨?_, ?_, ?_⟩
  · unfold Cache.Delete
    rw [hopen]
    simp
  · unfold Cache.Delete
    rw [hopen]
    simp
  · unfold Cache.Delete
    rw [hopen]
    simp only [Bool.false_eq_true, if_false]
    unfold Cache.Wait drainProcess
    simp only [hopen, Bool.false_eq_true, if_false, List.foldl_append, List.foldl_cons,
      List.foldl_nil]
    exact get_of_drain_del _ c.setBuf _ _ key rfl rfl
      (storeDel_nodup c.store ((c.keyToHash key).1) ((c.keyToHash key).2) hnd)

/-- Witness for C9: deleting "a" from a cache that holds it. -/
theorem delete_wait_get_not_found_witness :
    witC9.closed = false ∧ (witC9.store.map Prod.fst).Nodup ∧
    (Cache.Delete witC9 "a").store =
      (storeDel witC9.store ((witC9.keyToHash "a").1) ((witC9.keyToHash "a").2)).2 ∧
    (Cache.Delete witC9 "a").setBuf = witC9.setBuf ++
      [{ flag := ItemFlag.del, key := (witC9.keyToHash "a").1, conflict := (witC9.keyToHash "a").2,
         value := GoValue.nil, cost := 0, sync := false }] ∧
    (Cache.Get (Cache.Wait (Cache.Delete witC9 "a")) "a").1 = (GoValue.nil, false) :=
  ⟨by decide, by decide,
    (delete_wait_get_not_found witC9 "a" (by decide) (by decide)).1,
    (delete_wait_get_not_found witC9 "a" (by decide) (by decide)).2.1,
    (delete_wait_get_not_found witC9 "a" (by decide) (by decide)).2.2⟩

/-- C10: every public method of `Cache` is total on a nil receiver,
returning the zero value of its result domain without panicking. -/
theorem nil_receiver_total (k : String) (v : GoValue) (cost n : Int) (f : GoValue → Bool) :
    getOpt none k = ((GoValue.nil, false), none) ∧
    setOpt none k v = (false, none) ∧
    setWithCostOpt none k v cost = (false, none) ∧
    deleteOpt none k = none ∧
    closeOpt none = none ∧
    clearOpt none = none ∧
    waitOpt none = none ∧
    lenOpt none = 0 ∧
    usedCapacityOpt none = 0 ∧
    maxCapacityOpt none = 0 ∧
    setCapacityOpt none n = none ∧
    forEachOpt none f = [] ∧
    hitsOpt none = 0 ∧
    missesOpt none = 0 ∧
    evictionsOpt none = 0 :=
  ⟨rfl, rfl, rfl, rfl, rfl, rfl, rfl, rfl, rfl, rfl, rfl, rfl, rfl, rfl, rfl⟩

end Ristretto
